import Mathlib

/-!
Shallow embedding of `src/tensorshaper.py` (the "Axis Algebra"): index
normalization (`pidx`), the two permutation builders, and the shape-level
behaviour of the four public operations.  Array contents never matter: the
code only reads the shape and hands a permutation / target shape to the
external `transpose` / `reshape` primitives, so every operation is embedded
as a function on shape vectors (`List Nat`) that returns the planned result
(`Except` captures the `raise` / failing-`assert` outcomes).
-/

namespace Tensorshaper

/-- Failure outcomes of the Python code: `ValueError` ("R is not positive"),
`IndexError` (explicit bounds check, or a list access out of range), and
`AssertionError` carrying its message. -/
inductive Err where
  | invalidRank : Err
  | indexOOB : Err
  | assertFail : String → Err
  deriving DecidableEq, Repr

/-- Python `pidx(r, idx)`: normalize a possibly negative index against rank `r`.
Raises `ValueError` when `r < 1`, `IndexError` when `idx` is outside
`[-r, r-1]`, else returns `r + idx` for negative `idx` and `idx` otherwise. -/
def pidx (r idx : Int) : Except Err Int :=
  if r < 1 then .error .invalidRank
  else if ¬ (-r ≤ idx ∧ idx ≤ r - 1) then .error .indexOOB
  else if idx < 0 then .ok (r + idx) else .ok idx

/-- Clamped position of a Python slice / insert index for a list of length
`n`: a negative index first has `n` added, then the result is clamped into
`[0, n]`. -/
def pySliceBound (n : Nat) (i : Int) : Nat :=
  if i < 0 then (i + n).toNat else min n i.toNat

/-- Python `del l[a:b]`: remove the elements whose positions lie in the
clamped half-open range `[a, b)` (nothing when the range is empty). -/
def pyDelSlice (l : List α) (a b : Int) : List α :=
  l.take (pySliceBound l.length a) ++
    l.drop (max (pySliceBound l.length a) (pySliceBound l.length b))

/-- Python `l.insert(i, x)`: the position is a negative-aware index clamped
into `[0, len(l)]`. -/
def pyInsert (l : List α) (i : Int) (x : α) : List α :=
  l.take (pySliceBound l.length i) ++ x :: l.drop (pySliceBound l.length i)

/-- Python `get_swapping_permutation(r, idx0, idx1)`:
`permute = list(range(r)); permute[idx0] = idx1; permute[idx1] = idx0`.
The two bare `assert`s reject negative indices, and a Python list assignment
at an index `≥ r` raises `IndexError`. -/
def get_swapping_permutation (r : Nat) (idx0 idx1 : Int) : Except Err (List Nat) :=
  if ¬ 0 ≤ idx0 then .error (.assertFail "")
  else if ¬ 0 ≤ idx1 then .error (.assertFail "")
  else if ¬ idx0 < (r : Int) then .error .indexOOB
  else if ¬ idx1 < (r : Int) then .error .indexOOB
  else .ok (((List.range r).set idx0.toNat idx1.toNat).set idx1.toNat idx0.toNat)

/-- Python `get_popinsert_permutation(r, idx0, idx1)`:
`permute = list(range(r)); permute.insert(idx1, permute.pop(idx0))` after
normalizing both indices with `pidx` (whose failures propagate).  `pop`
returns the element at the normalized `idx0` and removes it; `insert` puts
it back at the normalized `idx1` of the shortened list. -/
def get_popinsert_permutation (r : Nat) (idx0 idx1 : Int) : Except Err (List Nat) := do
  let n0 ← pidx r idx0
  let n1 ← pidx r idx1
  let permute := List.range r
  .ok (pyInsert (permute.eraseIdx n0.toNat) n1 (permute.getD n0.toNat 0))

/-- Shape effect of `lib.transpose(arr, p)`: axis `i` of the output is axis
`p[i]` of the input, so the output shape is `p` mapped through the input
shape. -/
def transposeShape (p : List Nat) (s : List Nat) : List Nat :=
  p.map (fun i => s.getD i 0)

/-- Python `popinsert_axes(arr, axis0, axis1)` at the shape level: two bounds
`assert`s, then transpose by the pop-insert permutation. -/
def popinsert_axes (s : List Nat) (axis0 axis1 : Int) : Except Err (List Nat) :=
  let r : Int := s.length
  if ¬ (-r ≤ axis0 ∧ axis0 ≤ r - 1) then .error (.assertFail "rank oob")
  else if ¬ (-r ≤ axis1 ∧ axis1 ≤ r - 1) then .error (.assertFail "rank oob")
  else do
    let p ← get_popinsert_permutation s.length axis0 axis1
    .ok (transposeShape p s)

/-- Python `swap_axes(arr, axis0, axis1)` at the shape level: normalize both axes
with `pidx`, re-check the upper bound, transpose by the swapping
permutation. -/
def swap_axes (s : List Nat) (axis0 axis1 : Int) : Except Err (List Nat) := do
  let r : Int := s.length
  let a0 ← pidx r axis0
  let a1 ← pidx r axis1
  if ¬ a0 ≤ r - 1 then .error (.assertFail "rank oob")
  else if ¬ a1 ≤ r - 1 then .error (.assertFail "rank oob")
  else do
    let p ← get_swapping_permutation s.length a0 a1
    .ok (transposeShape p s)

/-- Python `pack_to_axis(arr, axis_source, axis_target)` at the shape level,
returning the shape vector handed to `lib.reshape` (`-1` is the wildcard):
three `assert`s, normalize `axis_target` (`r - abs(axis_target)` when
negative), `fwd = axis_source < axis_target`, `pretarget = axis_target - fwd`,
cycle the array (failures of that transpose propagate), permute the shape by
the same permutation, delete the slice `[pretarget, pretarget+2)` and insert
`-1` at `pretarget`. -/
def pack_to_axis (s : List Nat) (axis_source axis_target : Int) : Except Err (List Int) :=
  let r : Int := s.length
  if ¬ (-r ≤ axis_source ∧ axis_source ≤ r - 1) then .error (.assertFail "axis source oob")
  else if axis_target = axis_source then .error (.assertFail "identical axes")
  else if ¬ (-r + 1 ≤ axis_target ∧ axis_target ≤ r - 1) then .error (.assertFail "axis target oob")
  else
    let target := if axis_target < 0 then r - axis_target.natAbs else axis_target
    let fwd : Int := if axis_source < target then 1 else 0
    let pretarget := target - fwd
    do
      let _cycled ← popinsert_axes s axis_source pretarget
      let permuter ← get_popinsert_permutation s.length axis_source pretarget
      let s_permute : List Int := permuter.map (fun i => ((s.getD i 0 : Nat) : Int))
      .ok (pyInsert (pyDelSlice s_permute pretarget (pretarget + 2)) pretarget (-1))

/-- Python `unpack_axis(arr, axis_source, axis1_size)` at the shape level: normalize
`axis_source`, delete that entry of the shape, and splice `[-1, axis1_size]`
in at the same position; the result is handed to `lib.reshape`. -/
def unpack_axis (s : List Nat) (axis_source : Int) (axis1_size : Int) : Except Err (List Int) := do
  let r : Int := s.length
  let n ← pidx r axis_source
  if ¬ (0 ≤ n ∧ n ≤ r - 1) then .error (.assertFail "axis source oob")
  else
    let s' := s.eraseIdx n.toNat
    .ok ((s'.take n.toNat).map (fun a : Nat => (a : Int)) ++
          -1 :: axis1_size :: (s'.drop n.toNat).map (fun a : Nat => (a : Int)))

/-- Modelled from the spec: the external `reshape` primitive (spec §6) infers
a `-1` wildcard entry as `totalElements / product(otherEntries)`. -/
def inferWildcard (total : Nat) (plan : List Int) : Nat :=
  total / ((plan.filter (fun e => e != -1)).prod).toNat

/-- Modelled from the spec: the reshape plan with its wildcard replaced by
the inferred size (spec §6). -/
def resolveReshape (total : Nat) (plan : List Int) : List Int :=
  plan.map (fun e => if e = -1 then ((inferWildcard total plan : Nat) : Int) else e)

/-- The value `pidx` returns on an in-range index, as a natural number. -/
def pidxVal (r : Nat) (idx : Int) : Nat :=
  (if idx < 0 then idx + r else idx).toNat

/-- Composition of two permutation vectors: position `i` of the composite is
`q[p[i]]`, the effect of transposing by `p` and then by `q`. -/
def compPerm (p q : List Nat) : List Nat :=
  p.map (fun i => q.getD i 0)

/-! ### Helper lemmas -/

theorem pidx_ok (r : Nat) (idx : Int) (hr : 1 ≤ r)
    (h1 : -(r : Int) ≤ idx) (h2 : idx ≤ (r : Int) - 1) :
    pidx r idx = .ok ((pidxVal r idx : Nat) : Int) := by
  simp only [pidx, pidxVal]
  split_ifs with ha hb hc <;> simp_all <;> omega

theorem pidxVal_lt (r : Nat) (idx : Int) (hr : 1 ≤ r)
    (h1 : -(r : Int) ≤ idx) (h2 : idx ≤ (r : Int) - 1) :
    pidxVal r idx < r := by
  simp only [pidxVal]
  split_ifs <;> omega

theorem pySliceBound_coe (n m : Nat) (h : m ≤ n) : pySliceBound n (m : Int) = m := by
  simp [pySliceBound, h]

theorem insertAt_length (l : List α) (m : Nat) (x : α) (hm : m ≤ l.length) :
    (l.take m ++ x :: l.drop m).length = l.length + 1 := by
  simp; omega

theorem insertAt_perm (l : List α) (m : Nat) (x : α) :
    (l.take m ++ x :: l.drop m).Perm (x :: l) := by
  have h := @List.perm_middle _ x (l.take m) (l.drop m)
  simpa [List.take_append_drop] using h

theorem insertAt_getD (l : List α) (m : Nat) (x d : α) (hm : m ≤ l.length) :
    (l.take m ++ x :: l.drop m).getD m d = x := by
  have hl : (l.take m).length = m := by simp; omega
  have hlen : m < (l.take m ++ x :: l.drop m).length := by simp; omega
  rw [List.getD_eq_getElem _ _ hlen, List.getElem_append_right (by omega)]
  simp [hl]

theorem splice_take_drop (A B : List α) (m : Nat) (hA : A.length = m) (x : α) :
    (A ++ B).take m ++ x :: (A ++ B).drop m = A ++ x :: B := by
  subst hA
  rw [List.take_append_eq_append_take, List.drop_append_eq_append_drop]
  simp only [List.take_length, Nat.sub_self, List.take_zero, List.append_nil,
    List.drop_length, List.drop_zero, List.nil_append]

theorem insertAt_eraseIdx (l : List α) (m : Nat) (x : α) (hm : m ≤ l.length) :
    (l.take m ++ x :: l.drop m).eraseIdx m = l := by
  have hl : (l.take m).length = m := by simp; omega
  have h1 : (l.take m ++ x :: l.drop m).take m = l.take m := by
    rw [List.take_append_eq_append_take, hl]
    simp [List.take_take]
  have h2 : (l.take m ++ x :: l.drop m).drop (m + 1) = l.drop m := by
    rw [List.drop_append_eq_append_drop, hl]
    have e1 : (l.take m).drop (m + 1) = [] := List.drop_eq_nil_of_le (by omega)
    have e2 : m + 1 - m = 1 := by omega
    rw [e1, e2]
    simp
  rw [List.eraseIdx_eq_take_drop_succ, h1, h2, List.take_append_drop]

theorem range_splice (r n : Nat) (h : n < r) :
    List.range r = (List.range r).take n ++ n :: (List.range r).drop (n + 1) := by
  conv_lhs => rw [← List.take_append_drop n (List.range r)]
  rw [List.drop_eq_getElem_cons (by simpa using h)]
  simp

theorem length_range_eraseIdx (r n : Nat) (h : n < r) :
    ((List.range r).eraseIdx n).length = r - 1 := by
  have h' := List.length_eraseIdx_add_one
    (show n < (List.range r).length by simpa using h)
  simp at h'
  omega

/-- Characterization of the pop-insert permutation on in-range inputs: it is
the range with the element at the normalized `idx0` moved to the normalized
`idx1`. -/
theorem get_popinsert_eq (r : Nat) (idx0 idx1 : Int) (hr : 1 ≤ r)
    (h0 : -(r : Int) ≤ idx0) (h0' : idx0 ≤ (r : Int) - 1)
    (h1 : -(r : Int) ≤ idx1) (h1' : idx1 ≤ (r : Int) - 1) :
    get_popinsert_permutation r idx0 idx1 =
      .ok (((List.range r).eraseIdx (pidxVal r idx0)).take (pidxVal r idx1) ++
        pidxVal r idx0 ::
          ((List.range r).eraseIdx (pidxVal r idx0)).drop (pidxVal r idx1)) := by
  have hn0 : pidxVal r idx0 < r := pidxVal_lt r idx0 hr h0 h0'
  have hn1 : pidxVal r idx1 < r := pidxVal_lt r idx1 hr h1 h1'
  have hE : ((List.range r).eraseIdx (pidxVal r idx0)).length = r - 1 :=
    length_range_eraseIdx r _ hn0
  rw [get_popinsert_permutation, pidx_ok r idx0 hr h0 h0', pidx_ok r idx1 hr h1 h1']
  simp only [bind, Except.bind, Int.toNat_ofNat]
  rw [pyInsert, hE, pySliceBound_coe (r - 1) _ (by omega)]
  rw [List.getD_eq_getElem _ _ (by simpa using hn0), List.getElem_range]

/-! ### Claim theorems -/

/-- C4 (amended): for every rank `r ≥ 1` and `idx` in `[-r, r-1]`, `pidx`
returns `idx` when `idx ≥ 0` and `r + idx` when `idx < 0`; the result lies
in `[0, r-1]`; `pidx r idx = pidx r (idx - r)` for nonnegative `idx`; and
normalization restricts to a bijection on each half ( `[0, r-1]` and
`[-r, -1]` ) and is surjective onto `[0, r-1]` — it is not injective on the
whole of `[-r, r-1]`, precisely because of the stated aliasing. -/
theorem pidx_normalize_spec (r : Int) (hr : 1 ≤ r) :
    (∀ idx : Int, -r ≤ idx → idx ≤ r - 1 →
        pidx r idx = .ok (if 0 ≤ idx then idx else r + idx) ∧
        (0 ≤ idx → pidx r idx = pidx r (idx - r))) ∧
    (∀ idx : Int, -r ≤ idx → idx ≤ r - 1 →
        ∃ v, pidx r idx = .ok v ∧ 0 ≤ v ∧ v ≤ r - 1) ∧
    (∀ i j : Int, 0 ≤ i → i ≤ r - 1 → 0 ≤ j → j ≤ r - 1 →
        pidx r i = pidx r j → i = j) ∧
    (∀ i j : Int, -r ≤ i → i < 0 → -r ≤ j → j < 0 →
        pidx r i = pidx r j → i = j) ∧
    (∀ v : Int, 0 ≤ v → v ≤ r - 1 →
        ∃ idx, -r ≤ idx ∧ idx ≤ r - 1 ∧ pidx r idx = .ok v) := by
  refine ⟨?_, ?_, ?_, ?_, ?_⟩
  · intro idx h1 h2
    refine ⟨?_, fun hpos => ?_⟩
    · simp only [pidx]
      split_ifs <;> (try simp_all) <;> omega
    · simp only [pidx]
      split_ifs <;> (try simp_all) <;> omega
  · intro idx h1 h2
    refine ⟨if 0 ≤ idx then idx else r + idx, ?_, ?_, ?_⟩
    · simp only [pidx]
      split_ifs <;> (try simp_all) <;> omega
    · split_ifs <;> omega
    · split_ifs <;> omega
  · intro i j hi1 hi2 hj1 hj2 hij
    simp only [pidx] at hij
    split_ifs at hij <;> (try simp_all) <;> omega
  · intro i j hi1 hi2 hj1 hj2 hij
    simp only [pidx] at hij
    split_ifs at hij <;> (try simp_all) <;> omega
  · intro v hv1 hv2
    refine ⟨v, by omega, by omega, ?_⟩
    simp only [pidx]
    split_ifs <;> (try simp_all) <;> omega

/-- C4 counterexample: normalization is not a bijection from `[-r, r-1]`
onto `[0, r-1]` — at `r = 3` the distinct in-range indices `1` and `-2`
normalize to the same value. -/
theorem pidx_bijection_cex :
    pidx 3 1 = .ok 1 ∧ pidx 3 (-2) = .ok 1 ∧ (1 : Int) ≠ -2 :=
  ⟨rfl, rfl, by decide⟩

/-- Witness for C4 at `r = 3`, `idx = -2`. -/
theorem pidx_normalize_spec_witness :
    pidx 3 (-2) = .ok (if 0 ≤ (-2 : Int) then (-2 : Int) else 3 + -2) ∧
    (0 ≤ (-2 : Int) → pidx 3 (-2) = pidx 3 (-2 - 3)) :=
  (pidx_normalize_spec 3 (by norm_num)).1 (-2) (by norm_num) (by norm_num)

/-- C5: `pidx` fails with `InvalidRank` exactly when `r < 1`, with
`IndexOutOfBounds` exactly when `r ≥ 1` and `idx` is outside `[-r, r-1]`;
`pidx 0 0` and `pidx 3 3` fail accordingly, and every in-range input
returns a value. -/
theorem pidx_error_conditions :
    (∀ r idx : Int, pidx r idx = .error .invalidRank ↔ r < 1) ∧
    (∀ r idx : Int, pidx r idx = .error .indexOOB ↔
        1 ≤ r ∧ ¬(-r ≤ idx ∧ idx ≤ r - 1)) ∧
    pidx 0 0 = .error .invalidRank ∧
    pidx 3 3 = .error .indexOOB ∧
    (∀ r idx : Int, 1 ≤ r → -r ≤ idx → idx ≤ r - 1 → ∃ v, pidx r idx = .ok v) := by
  refine ⟨?_, ?_, rfl, rfl, ?_⟩
  · intro r idx
    simp only [pidx]
    split_ifs <;> (try simp_all) <;> omega
  · intro r idx
    simp only [pidx]
    split_ifs <;> (try simp_all) <;> omega
  · intro r idx hr h1 h2
    refine ⟨if idx < 0 then r + idx else idx, ?_⟩
    simp only [pidx]
    split_ifs <;> (try simp_all) <;> omega

/-- Witness for C5: an in-range input returns a value. -/
theorem pidx_error_conditions_witness : ∃ v, pidx 3 1 = .ok v :=
  pidx_error_conditions.2.2.2.2 3 1 (by norm_num) (by norm_num) (by norm_num)

/-- C9 (amended): a pack request whose two axis arguments are equal and lie
in `[-r, r-1]` fails eagerly with the identical-axes assertion (the error is
produced before any transpose or reshape plan is computed). -/
theorem packAxis_identical_axes (s : List Nat) (a : Int)
    (h0 : -(s.length : Int) ≤ a) (h1 : a ≤ (s.length : Int) - 1) :
    pack_to_axis s a a = .error (.assertFail "identical axes") := by
  simp only [pack_to_axis]
  rw [if_neg (not_not_intro ⟨h0, h1⟩)]
  simp

/-- Witness for C9 (amended). -/
theorem packAxis_identical_axes_witness :
    pack_to_axis [2, 3] 1 1 = .error (.assertFail "identical axes") :=
  packAxis_identical_axes [2, 3] 1 (by norm_num) (by norm_num)

/-- C9 counterexample: when the identical axis value lies outside
`[-r, r-1]`, `pack_to_axis` fails with the axis-source bounds assertion, a
different error than the identical-axes one the claim requires. -/
theorem packAxis_identical_axes_cex :
    pack_to_axis [2, 2, 2] 5 5 = .error (.assertFail "axis source oob") ∧
    Err.assertFail "axis source oob" ≠ Err.assertFail "identical axes" :=
  ⟨rfl, by decide⟩

/-- C1 (code bug): at shape `(2,3)` with `axisSource = -1`, `axisTarget = 0`
— which meets every precondition of the claim (`-1 ∈ [-2, 1]`,
`0 ∈ [-1, 1]`, `0 ≠ -1`) — the planned reshape shape is `[2, -1, 3]`, of
length `3 = r + 1` rather than the guaranteed `r - 1 = 1`. -/
theorem packAxis_rank_bug :
    pack_to_axis [2, 3] (-1) 0 = .ok [2, -1, 3] ∧
    ([2, -1, 3] : List Int).length ≠ ([2, 3] : List Nat).length - 1 :=
  ⟨rfl, by decide⟩

theorem insertIdx_eq_splice (l : List α) (m : Nat) (x : α) (hm : m ≤ l.length) :
    l.insertIdx m x = l.take m ++ x :: l.drop m := by
  induction l generalizing m with
  | nil =>
    have hm0 : m = 0 := by simpa using hm
    subst hm0
    simp
  | cons a t ih =>
    cases m with
    | zero => simp
    | succ m =>
      rw [List.insertIdx_succ_cons, ih m (by simpa using hm)]
      simp

theorem swapList_getElem (r i0 i1 i : Nat) (h0 : i0 < r) (h1 : i1 < r) (hi : i < r)
    (h' : i < (((List.range r).set i0 i1).set i1 i0).length) :
    (((List.range r).set i0 i1).set i1 i0)[i] =
      if i = i1 then i0 else if i = i0 then i1 else i := by
  rw [List.getElem_set, List.getElem_set, List.getElem_range]
  split_ifs <;> omega

theorem swapList_getD (r i0 i1 i : Nat) (h0 : i0 < r) (h1 : i1 < r) (hi : i < r) :
    (((List.range r).set i0 i1).set i1 i0).getD i 0 =
      if i = i1 then i0 else if i = i0 then i1 else i := by
  rw [List.getD_eq_getElem _ _ (by simpa using hi)]
  exact swapList_getElem r i0 i1 i h0 h1 hi (by simpa using hi)

theorem range_set_self (r n : Nat) : (List.range r).set n n = List.range r := by
  apply List.ext_getElem (by simp)
  intro i h1 h2
  rw [List.getElem_set]
  split_ifs with h
  · subst h
    simp
  · rfl

theorem transposeShape_range (s : List Nat) :
    transposeShape (List.range s.length) s = s := by
  apply List.ext_getElem (by simp [transposeShape])
  intro i h1 h2
  simp only [transposeShape, List.getElem_map]
  rw [List.getElem_range, List.getD_eq_getElem _ _ h2]

/-- C3: on in-range raw indices the cycle permutation equals the identity
sequence `0..r-1` with the element at the normalized `idx0` removed and
reinserted at the normalized `idx1`; it has length `r`, is a permutation of
`{0, ..., r-1}`, carries the moved element at position `idx1`, and keeps all
other elements in their original relative order (removing the moved element
again restores the erased identity sequence). -/
theorem popinsertPerm_spec (r : Nat) (idx0 idx1 : Int) (hr : 1 ≤ r)
    (h0 : -(r : Int) ≤ idx0) (h0' : idx0 ≤ (r : Int) - 1)
    (h1 : -(r : Int) ≤ idx1) (h1' : idx1 ≤ (r : Int) - 1) :
    ∃ l : List Nat,
      get_popinsert_permutation r idx0 idx1 = .ok l ∧
      l = ((List.range r).eraseIdx (pidxVal r idx0)).insertIdx (pidxVal r idx1)
            (pidxVal r idx0) ∧
      l.length = r ∧
      l.Perm (List.range r) ∧
      l.getD (pidxVal r idx1) 0 = pidxVal r idx0 ∧
      l.eraseIdx (pidxVal r idx1) = (List.range r).eraseIdx (pidxVal r idx0) := by
  have hn0 : pidxVal r idx0 < r := pidxVal_lt r idx0 hr h0 h0'
  have hn1 : pidxVal r idx1 < r := pidxVal_lt r idx1 hr h1 h1'
  have hE : ((List.range r).eraseIdx (pidxVal r idx0)).length = r - 1 :=
    length_range_eraseIdx r _ hn0
  have hle : pidxVal r idx1 ≤ ((List.range r).eraseIdx (pidxVal r idx0)).length := by
    omega
  refine ⟨_, get_popinsert_eq r idx0 idx1 hr h0 h0' h1 h1', ?_, ?_, ?_, ?_, ?_⟩
  · exact (insertIdx_eq_splice _ _ _ hle).symm
  · rw [insertAt_length _ _ _ hle, hE]
    omega
  · refine (insertAt_perm _ _ _).trans ?_
    rw [List.eraseIdx_eq_take_drop_succ]
    conv_rhs => rw [range_splice r (pidxVal r idx0) hn0]
    exact List.perm_middle.symm
  · exact insertAt_getD _ _ _ _ hle
  · exact insertAt_eraseIdx _ _ _ hle

/-- Witness for C3 at `r = 4`, `idx0 = -3`, `idx1 = 2`. -/
theorem popinsertPerm_spec_witness :
    ∃ l : List Nat,
      get_popinsert_permutation 4 (-3) 2 = .ok l ∧
      l = ((List.range 4).eraseIdx (pidxVal 4 (-3))).insertIdx (pidxVal 4 2)
            (pidxVal 4 (-3)) ∧
      l.length = 4 ∧
      l.Perm (List.range 4) ∧
      l.getD (pidxVal 4 2) 0 = pidxVal 4 (-3) ∧
      l.eraseIdx (pidxVal 4 2) = (List.range 4).eraseIdx (pidxVal 4 (-3)) :=
  popinsertPerm_spec 4 (-3) 2 (by norm_num) (by norm_num) (by norm_num) (by norm_num)
    (by norm_num)

/-- C8: when the two raw indices normalize to the same position, the
pop-insert permutation is the identity `[0, 1, ..., r-1]`. -/
theorem popinsertPerm_identity (r : Nat) (idx0 idx1 : Int) (hr : 1 ≤ r)
    (h0 : -(r : Int) ≤ idx0) (h0' : idx0 ≤ (r : Int) - 1)
    (h1 : -(r : Int) ≤ idx1) (h1' : idx1 ≤ (r : Int) - 1)
    (heq : pidxVal r idx0 = pidxVal r idx1) :
    get_popinsert_permutation r idx0 idx1 = .ok (List.range r) := by
  have hn0 : pidxVal r idx0 < r := pidxVal_lt r idx0 hr h0 h0'
  have hA : ((List.range r).take (pidxVal r idx0)).length = pidxVal r idx0 := by
    simp
    omega
  rw [get_popinsert_eq r idx0 idx1 hr h0 h0' h1 h1', ← heq,
    List.eraseIdx_eq_take_drop_succ, splice_take_drop _ _ _ hA,
    ← range_splice r _ hn0]

/-- Witness for C8: `idx0 = 1` and `idx1 = -3` both normalize to `1` at
rank 4. -/
theorem popinsertPerm_identity_witness :
    get_popinsert_permutation 4 1 (-3) = .ok (List.range 4) :=
  popinsertPerm_identity 4 1 (-3) (by norm_num) (by norm_num) (by norm_num)
    (by norm_num) (by norm_num) rfl

/-- C7: the swap permutation built for two distinct normalized indices,
composed with itself, is the identity permutation of length `r`. -/
theorem swapPerm_self_inverse (r i0 i1 : Nat) (h0 : i0 < r) (h1 : i1 < r)
    (hne : i0 ≠ i1) :
    ∃ p, get_swapping_permutation r i0 i1 = .ok p ∧ compPerm p p = List.range r := by
  refine ⟨((List.range r).set i0 i1).set i1 i0, ?_, ?_⟩
  · simp [get_swapping_permutation, h0, h1]
  · apply List.ext_getElem
    · simp [compPerm]
    · intro i hi1 hi2
      have hi : i < r := by simpa using hi2
      rw [List.getElem_range]
      simp only [compPerm, List.getElem_map]
      rw [swapList_getElem r i0 i1 i h0 h1 hi]
      split_ifs with hA hB
      · rw [swapList_getD r i0 i1 i0 h0 h1 h0]
        split_ifs <;> omega
      · rw [swapList_getD r i0 i1 i1 h0 h1 h1]
        split_ifs <;> omega
      · rw [swapList_getD r i0 i1 i h0 h1 hi]
        split_ifs <;> omega

/-- Witness for C7 at `r = 3`, indices `0` and `2`. -/
theorem swapPerm_self_inverse_witness :
    ∃ p, get_swapping_permutation 3 0 2 = .ok p ∧ compPerm p p = List.range 3 :=
  swapPerm_self_inverse 3 0 2 (by norm_num) (by norm_num) (by norm_num)

/-- C10: `swap_axes` with two equal axis arguments succeeds (equal axes are
not rejected), the permutation it builds is the identity, and the result is
exactly the input shape. -/
theorem swapAxes_equal_axes (s : List Nat) (i : Int) (hr : 1 ≤ s.length)
    (h0 : -(s.length : Int) ≤ i) (h1 : i ≤ (s.length : Int) - 1) :
    swap_axes s i i = .ok s ∧
    get_swapping_permutation s.length (pidxVal s.length i) (pidxVal s.length i) =
      .ok (List.range s.length) := by
  have hn : pidxVal s.length i < s.length := pidxVal_lt s.length i hr h0 h1
  have hswap : get_swapping_permutation s.length (pidxVal s.length i)
      (pidxVal s.length i) = .ok (List.range s.length) := by
    simp [get_swapping_permutation, hn, range_set_self]
  refine ⟨?_, hswap⟩
  simp only [swap_axes]
  rw [pidx_ok s.length i hr h0 h1]
  simp only [bind, Except.bind]
  rw [if_neg (not_not_intro (by push_cast; omega)),
    if_neg (not_not_intro (by push_cast; omega)), hswap]
  simp only [bind, Except.bind]
  rw [transposeShape_range]

theorem natCast_eq_negOne_iff (a : Nat) : ((a : Int) = -1) ↔ False := by
  simp

theorem natCast_bne_negOne (a : Nat) : (((a : Int)) != -1) = true := by
  simp [bne_iff_ne]

set_option maxHeartbeats 1000000 in
/-- C2: for a rank-4 shape `(A,B,C,D)` of positive sizes, the reshape plan
of `pack_to_axis(arr, 1, 3)` with its wildcard resolved by the external
reshape primitive is `(A, C, B*D)`, and that of `pack_to_axis(arr, 2, 0)`
is `(C*A, B, D)`. -/
theorem packAxis_concrete_scenarios (A B C D : Nat)
    (hA : 0 < A) (hB : 0 < B) (hC : 0 < C) (hD : 0 < D) :
    (pack_to_axis [A, B, C, D] 1 3).map
        (resolveReshape ([A, B, C, D] : List Nat).prod) =
      .ok [(A : Int), (C : Int), ((B * D : Nat) : Int)] ∧
    (pack_to_axis [A, B, C, D] 2 0).map
        (resolveReshape ([A, B, C, D] : List Nat).prod) =
      .ok [((C * A : Nat) : Int), (B : Int), ((D : Nat) : Int)] := by
  have plan1 : pack_to_axis [A, B, C, D] 1 3 = .ok [(A : Int), (C : Int), -1] := by
    simp [pack_to_axis, popinsert_axes, get_popinsert_permutation, pidx,
      transposeShape, pyInsert, pyDelSlice, pySliceBound, bind, Except.bind,
      List.range_succ, List.eraseIdx, List.getD]
  have plan2 : pack_to_axis [A, B, C, D] 2 0 = .ok [-1, (B : Int), (D : Int)] := by
    simp [pack_to_axis, popinsert_axes, get_popinsert_permutation, pidx,
      transposeShape, pyInsert, pyDelSlice, pySliceBound, bind, Except.bind,
      List.range_succ, List.eraseIdx, List.getD]
  constructor
  · rw [plan1]
    simp only [Except.map, Except.ok.injEq, resolveReshape, inferWildcard,
      List.filter, natCast_bne_negOne, List.map, natCast_eq_negOne_iff, if_false,
      bne_self_eq_false, if_true]
    simp only [List.prod_cons, List.prod_nil]
    have h1 : ((A : Int) * ((C : Int) * 1)).toNat = A * C := by
      rw [show ((A : Int) * ((C : Int) * 1)) = ((A * C : Nat) : Int) by push_cast; ring,
        Int.toNat_ofNat]
    have h2 : A * (B * (C * (D * 1))) / (A * C) = B * D := by
      rw [show A * (B * (C * (D * 1))) = (A * C) * (B * D) by ring]
      exact Nat.mul_div_cancel_left _ (Nat.mul_pos hA hC)
    rw [h1, h2]
  · rw [plan2]
    simp only [Except.map, Except.ok.injEq, resolveReshape, inferWildcard,
      List.filter, natCast_bne_negOne, List.map, natCast_eq_negOne_iff, if_false,
      bne_self_eq_false, if_true]
    simp only [List.prod_cons, List.prod_nil]
    have h1 : ((B : Int) * ((D : Int) * 1)).toNat = B * D := by
      rw [show ((B : Int) * ((D : Int) * 1)) = ((B * D : Nat) : Int) by push_cast; ring,
        Int.toNat_ofNat]
    have h2 : A * (B * (C * (D * 1))) / (B * D) = C * A := by
      rw [show A * (B * (C * (D * 1))) = (B * D) * (C * A) by ring]
      exact Nat.mul_div_cancel_left _ (Nat.mul_pos hB hD)
    rw [h1, h2]

theorem filter_natCast_map (l : List Nat) :
    (l.map fun x : Nat => (x : Int)).filter (fun e => e != -1) = l.map fun x : Nat => (x : Int) := by
  refine List.filter_eq_self.mpr ?_
  intro e he
  rcases List.mem_map.mp he with ⟨x, _, rfl⟩
  exact natCast_bne_negOne x

theorem map_resolve_natCast (l : List Nat) (w : Int) :
    (l.map fun x : Nat => (x : Int)).map (fun e => if e = -1 then w else e) =
      l.map fun x : Nat => (x : Int) := by
  rw [List.map_map]
  refine List.map_congr_left ?_
  intro x _
  simp [natCast_eq_negOne_iff]

theorem prod_natCast_map (l : List Nat) :
    (l.map fun x : Nat => (x : Int)).prod = (l.prod : Int) := by
  induction l with
  | nil => rfl
  | cons a t ih =>
    rw [List.map_cons, List.prod_cons, List.prod_cons, ih]
    push_cast
    ring

theorem getD_splice (s : List Nat) (n : Nat) (h : n < s.length) :
    s = s.take n ++ s.getD n 0 :: s.drop (n + 1) := by
  conv_lhs => rw [← List.take_append_drop n s]
  rw [List.drop_eq_getElem_cons h, List.getD_eq_getElem _ _ h]

theorem reshape_div_helper (tp dp i sn : Nat) (h : i ∣ sn) :
    tp * ((tp * (sn * dp)) / (tp * (i * dp)) * (i * dp)) = tp * (sn * dp) := by
  obtain ⟨k, rfl⟩ := h
  have hdvd : (tp * (i * dp)) ∣ (tp * ((i * k) * dp)) := ⟨k, by ring⟩
  calc tp * ((tp * ((i * k) * dp)) / (tp * (i * dp)) * (i * dp))
      = (tp * (i * dp)) * ((tp * ((i * k) * dp)) / (tp * (i * dp))) := by ring
    _ = tp * ((i * k) * dp) := Nat.mul_div_cancel' hdvd

set_option maxHeartbeats 1000000 in
/-- C6: `unpack_axis` plans a reshape target equal to the shape with the
entry at the normalized `axisSource` removed and the two entries
`[wildcard, innerSize]` inserted at that same position, giving rank `r+1`
and — when `innerSize` divides the original entry — an unchanged total
element count once the wildcard is resolved; concretely, a positive shape
`(A,B,C*D,E)` with `unpack_axis(arr, 2, D)` resolves to `(A,B,C,D,E)`. -/
theorem unpack_axis_spec :
    (∀ (s : List Nat) (a : Int) (inner : Nat), 1 ≤ s.length →
        -(s.length : Int) ≤ a → a ≤ (s.length : Int) - 1 →
        ∃ l, unpack_axis s a inner = .ok l ∧
          l = (s.map fun x : Nat => (x : Int)).take (pidxVal s.length a) ++
                -1 :: (inner : Int) ::
                  (s.map fun x : Nat => (x : Int)).drop (pidxVal s.length a + 1) ∧
          l.length = s.length + 1 ∧
          (inner ∣ s.getD (pidxVal s.length a) 0 →
            (resolveReshape s.prod l).prod = (s.prod : Int))) ∧
    (∀ A B C D E : Nat, 0 < A → 0 < B → 0 < D → 0 < E →
        (unpack_axis [A, B, C * D, E] 2 D).map
            (resolveReshape ([A, B, C * D, E] : List Nat).prod) =
          .ok [(A : Int), (B : Int), (C : Int), (D : Int), (E : Int)]) := by
  constructor
  · intro s a inner hr h1 h2
    have hn : pidxVal s.length a < s.length := pidxVal_lt s.length a hr h1 h2
    have hu : unpack_axis s a inner =
        .ok (((s.eraseIdx (pidxVal s.length a)).take
                (pidxVal s.length a)).map (fun x : Nat => (x : Int)) ++
          -1 :: (inner : Int) ::
            ((s.eraseIdx (pidxVal s.length a)).drop
                (pidxVal s.length a)).map (fun x : Nat => (x : Int))) := by
      simp only [unpack_axis]
      rw [pidx_ok s.length a hr h1 h2]
      simp only [bind, Except.bind, Int.toNat_ofNat]
      rw [if_neg (not_not_intro (by push_cast; omega))]
    have hed : s.eraseIdx (pidxVal s.length a) =
        s.take (pidxVal s.length a) ++ s.drop (pidxVal s.length a + 1) :=
      List.eraseIdx_eq_take_drop_succ s _
    have hlt : (s.take (pidxVal s.length a)).length = pidxVal s.length a := by
      simp
      omega
    have htk : (s.eraseIdx (pidxVal s.length a)).take (pidxVal s.length a) =
        s.take (pidxVal s.length a) := by
      rw [hed, List.take_append_eq_append_take, hlt]
      simp [List.take_take]
    have hdr : (s.eraseIdx (pidxVal s.length a)).drop (pidxVal s.length a) =
        s.drop (pidxVal s.length a + 1) := by
      rw [hed, List.drop_append_eq_append_drop, hlt]
      have e1 : (s.take (pidxVal s.length a)).drop (pidxVal s.length a) = [] :=
        List.drop_eq_nil_of_le (by omega)
      rw [e1]
      simp
    refine ⟨_, hu, ?_, ?_, ?_⟩
    · rw [htk, hdr, List.map_take, List.map_drop]
    · simp only [List.length_append, List.length_map, List.length_cons, htk, hdr,
        List.length_take, List.length_drop]
      omega
    · intro hdvd
      set n := pidxVal s.length a with hn_def
      set l := ((s.eraseIdx n).take n).map (fun x : Nat => (x : Int)) ++
          -1 :: (inner : Int) ::
            ((s.eraseIdx n).drop n).map (fun x : Nat => (x : Int)) with hl_def
      have hlrw : l = (s.take n).map (fun x : Nat => (x : Int)) ++
          -1 :: (inner : Int) ::
            (s.drop (n + 1)).map (fun x : Nat => (x : Int)) := by
        rw [hl_def, htk, hdr]
      have hfil : l.filter (fun e => e != -1) =
          (s.take n).map (fun x : Nat => (x : Int)) ++
            (inner : Int) :: (s.drop (n + 1)).map (fun x : Nat => (x : Int)) := by
        rw [hlrw, List.filter_append, filter_natCast_map,
          List.filter_cons_of_neg (by decide)]
        simp [List.filter_cons, natCast_bne_negOne, filter_natCast_map]
        intro e he
        rcases List.mem_map.mp (List.mem_of_mem_drop he) with ⟨x, _, rfl⟩
        simp [natCast_eq_negOne_iff]
      have hfp : ((l.filter (fun e => e != -1)).prod).toNat =
          (s.take n).prod * (inner * (s.drop (n + 1)).prod) := by
        rw [hfil, List.prod_append, List.prod_cons, prod_natCast_map, prod_natCast_map]
        rw [show (((s.take n).prod : Int) * ((inner : Int) * ((s.drop (n + 1)).prod : Int))) =
            (((s.take n).prod * (inner * (s.drop (n + 1)).prod) : Nat) : Int) by
          push_cast; ring]
        rw [Int.toNat_ofNat]
      have hsplit : s.prod =
          (s.take n).prod * (s.getD n 0 * (s.drop (n + 1)).prod) := by
        conv_lhs => rw [getD_splice s n hn]
        rw [List.prod_append, List.prod_cons]
      have hwv : inferWildcard s.prod l =
          ((s.take n).prod * (s.getD n 0 * (s.drop (n + 1)).prod)) /
            ((s.take n).prod * (inner * (s.drop (n + 1)).prod)) := by
        rw [inferWildcard, hfp, hsplit]
      have hres : resolveReshape s.prod l =
          (s.take n).map (fun x : Nat => (x : Int)) ++
            ((inferWildcard s.prod l : Nat) : Int) :: (inner : Int) ::
              (s.drop (n + 1)).map (fun x : Nat => (x : Int)) := by
        rw [resolveReshape]
        generalize inferWildcard s.prod l = w
        rw [hlrw, List.map_append, map_resolve_natCast, List.map_cons,
          List.map_cons, map_resolve_natCast]
        simp [natCast_eq_negOne_iff]
      rw [hres, List.prod_append, List.prod_cons, List.prod_cons,
        prod_natCast_map, prod_natCast_map, hwv, hsplit]
      exact_mod_cast reshape_div_helper (s.take n).prod (s.drop (n + 1)).prod
        inner (s.getD n 0) hdvd
  · intro A B C D E hA hB hD hE
    have plan : unpack_axis [A, B, C * D, E] 2 D =
        .ok [(A : Int), (B : Int), -1, (D : Int), (E : Int)] := by
      simp [unpack_axis, pidx, bind, Except.bind, List.eraseIdx]
    rw [plan]
    simp only [Except.map, Except.ok.injEq, resolveReshape, inferWildcard,
      List.filter, natCast_bne_negOne, List.map, natCast_eq_negOne_iff, if_false,
      bne_self_eq_false, if_true]
    simp only [List.prod_cons, List.prod_nil]
    have h1 : ((A : Int) * ((B : Int) * ((D : Int) * ((E : Int) * 1)))).toNat =
        A * (B * (D * (E * 1))) := by
      rw [show ((A : Int) * ((B : Int) * ((D : Int) * ((E : Int) * 1)))) =
          ((A * (B * (D * (E * 1))) : Nat) : Int) by push_cast; ring]
      rw [Int.toNat_ofNat]
    have h2 : A * (B * (C * D * (E * 1))) / (A * (B * (D * (E * 1)))) = C := by
      rw [show A * (B * (C * D * (E * 1))) = (A * (B * (D * (E * 1)))) * C by ring]
      exact Nat.mul_div_cancel_left _ (by positivity)
    rw [h1, h2]

/-- Witness for C6: unpacking axis 2 of the positive shape `(2, 3, 5*7, 11)`
with inner size `7` resolves to `(2, 3, 5, 7, 11)`. -/
theorem unpack_axis_spec_witness :
    (unpack_axis [2, 3, 5 * 7, 11] 2 7).map
        (resolveReshape ([2, 3, 5 * 7, 11] : List Nat).prod) =
      .ok [2, 3, 5, 7, 11] :=
  unpack_axis_spec.2 2 3 5 7 11 (by norm_num) (by norm_num) (by norm_num)
    (by norm_num)

/-- Witness for C2 at `(A,B,C,D) = (2,3,5,7)`. -/
theorem packAxis_concrete_scenarios_witness :
    (pack_to_axis [2, 3, 5, 7] 1 3).map
        (resolveReshape ([2, 3, 5, 7] : List Nat).prod) = .ok [2, 5, 21] ∧
    (pack_to_axis [2, 3, 5, 7] 2 0).map
        (resolveReshape ([2, 3, 5, 7] : List Nat).prod) = .ok [10, 3, 7] :=
  packAxis_concrete_scenarios 2 3 5 7 (by norm_num) (by norm_num) (by norm_num)
    (by norm_num)

/-- Witness for C10 at shape `[4,5,6]`, axis `-2`. -/
theorem swapAxes_equal_axes_witness :
    swap_axes [4, 5, 6] (-2) (-2) = .ok [4, 5, 6] ∧
    get_swapping_permutation ([4, 5, 6] : List Nat).length
        (pidxVal ([4, 5, 6] : List Nat).length (-2))
        (pidxVal ([4, 5, 6] : List Nat).length (-2)) =
      .ok (List.range ([4, 5, 6] : List Nat).length) :=
  swapAxes_equal_axes [4, 5, 6] (-2) (by norm_num) (by norm_num) (by norm_num)

end Tensorshaper
